import Mathlib

/-!
Verification of the `RedisClient` component
(`src/cpp/src/communication/redis_client.h`).

The client is a thin facade over a key-value / list / pub-sub store.  We
embed it shallowly: the store's behaviour is a function
`Exec : Store → Command → Option RedisReply × Store` (a `none` reply models
`redisCommand` returning `nullptr`), `redisExec` is the faithful semantics of
a healthy store, and each member function of the C++ class becomes a Lean
function that returns its result, the (unchanged) client object, the store
after the call, and the trace of commands it issued.
-/

/-- Reply types of the hiredis `redisReply` structure that the client
inspects: `REDIS_REPLY_STATUS`, `REDIS_REPLY_STRING`, `REDIS_REPLY_INTEGER`,
`REDIS_REPLY_ARRAY`, `REDIS_REPLY_NIL`, `REDIS_REPLY_ERROR`. -/
inductive RType where
  | status
  | rstring
  | integer
  | array
  | nil
  | error
deriving DecidableEq, Repr

/-- Model of a hiredis `redisReply`: the tag together with the `str`,
`integer` and `element` payloads the client reads. -/
inductive RedisReply where
  | mk (rtype : RType) (str : String) (intVal : Int) (elements : List RedisReply)

/-- The reply tag (`reply->type`). -/
def RedisReply.rtype : RedisReply → RType
  | .mk t _ _ _ => t

/-- The string payload (`reply->str`). -/
def RedisReply.str : RedisReply → String
  | .mk _ s _ _ => s

/-- The integer payload (`reply->integer`). -/
def RedisReply.intVal : RedisReply → Int
  | .mk _ _ n _ => n

/-- The array payload (`reply->element`). -/
def RedisReply.elements : RedisReply → List RedisReply
  | .mk _ _ _ es => es

/-- A status reply such as `+OK`. -/
def statusReply (s : String) : RedisReply := .mk .status s 0 []

/-- A bulk-string reply. -/
def stringReply (s : String) : RedisReply := .mk .rstring s 0 []

/-- An integer reply. -/
def intReply (n : Int) : RedisReply := .mk .integer "" n []

/-- The nil reply (absent key). -/
def nilReply : RedisReply := .mk .nil "" 0 []

/-- An error reply such as `-ERR ...`. -/
def errorReply (s : String) : RedisReply := .mk .error s 0 []

/-- The commands this client sends over `redisCommand`. -/
inductive Command where
  | set (key value : String)
  | lpush (key value : String)
  | ltrim (key : String) (start stop : Int)
  | get (key : String)
  | publish (channel value : String)
  | keys (pat : String)
deriving DecidableEq, Repr

/-- The externally stored data: string keys (SET/GET) and list keys
(LPUSH/LTRIM), as association lists. -/
structure Store where
  kv : List (String × String)
  lists : List (String × List String)
deriving DecidableEq, Repr

/-- Update an association list at a key, in place if present. -/
def updEntry {α : Type} (m : List (String × α)) (k : String) (v : α) :
    List (String × α) :=
  match m with
  | [] => [(k, v)]
  | (k', v') :: rest =>
      if k' = k then (k, v) :: rest else (k', v') :: updEntry rest k v

/-- The list stored at a key (empty when absent, as in Redis). -/
def Store.getList (st : Store) (k : String) : List String :=
  (st.lists.lookup k).getD []

/-- The string stored at a key, if any. -/
def Store.getKV (st : Store) (k : String) : Option String :=
  st.kv.lookup k

/-- A store behaviour: what reply each command gets and how it changes the
store.  A `none` reply models `redisCommand` returning `nullptr`. -/
def Exec : Type := Store → Command → Option RedisReply × Store

/-- `LTRIM key start stop` semantics: keep the elements whose index lies in
`[start, stop]`, negative indices counting from the end. -/
def trimRange (l : List String) (start stop : Int) : List String :=
  let norm : Int → Nat := fun i => if i < 0 then (l.length + i).toNat else i.toNat
  (l.take (norm stop + 1)).drop (norm start)

/-- Trailing-star glob match, as used by `KEYS stock:current:*`. -/
def globMatch (pat key : String) : Bool :=
  if pat.endsWith "*" then (pat.dropRight 1).isPrefixOf key else pat == key

/-- The keys of the string table matching a pattern. -/
def matchingKeys (st : Store) (pat : String) : List String :=
  (st.kv.map Prod.fst).filter (fun k => globMatch pat k)

/-- Faithful semantics of a healthy Redis store for the commands the client
uses: `SET` stores and replies `+OK`, `LPUSH` prepends and replies the new
length, `LTRIM` truncates and replies `+OK`, `GET` replies the stored string
or nil, `PUBLISH` replies the number of receiving subscribers (none are
modelled, so 0), `KEYS` replies the matching keys. -/
def redisExec : Exec := fun st cmd =>
  match cmd with
  | .set k v => (some (statusReply "OK"), { st with kv := updEntry st.kv k v })
  | .lpush k v =>
      let l := v :: st.getList k
      (some (intReply l.length), { st with lists := updEntry st.lists k l })
  | .ltrim k start stop =>
      let l := trimRange (st.getList k) start stop
      (some (statusReply "OK"), { st with lists := updEntry st.lists k l })
  | .get k =>
      match st.getKV k with
      | some v => (some (stringReply v), st)
      | none => (some nilReply, st)
  | .publish _ _ => (some (intReply 0), st)
  | .keys p => (some (.mk .array "" 0 ((matchingKeys st p).map stringReply)), st)

/-- Model of a C++ `double` as this component observes it: the component
never computes with the value, it only embeds it into a JSON document, so we
represent a double by the decimal token its serializer emits. -/
structure CDouble where
  repr : String
deriving DecidableEq, Repr

/-- Model of an `nlohmann::json` value.  Quote payloads are opaque to the
client (spec: "treated as a serialized blob"); the client builds one such
document itself (the signal record).  Note `nlohmann::json` keeps object
keys in sorted order, so an object built by the client is represented here
with its fields already key-sorted. -/
inductive Json where
  | null
  | bool (b : Bool)
  | int (n : Int)
  | double (d : CDouble)
  | str (s : String)
  | arr (elems : List Json)
  | obj (fields : List (String × Json))

/-- Serialization of one character inside a JSON string: quote, backslash
and the common control characters get a backslash escape, everything else is
emitted verbatim. -/
def escapeChar (ch : Char) : List Char :=
  if ch = '"' then ['\\', '"']
  else if ch = '\\' then ['\\', '\\']
  else if ch = '\n' then ['\\', 'n']
  else if ch = '\t' then ['\\', 't']
  else if ch = '\r' then ['\\', 'r']
  else if ch = '\x08' then ['\\', 'b']
  else if ch = '\x0c' then ['\\', 'f']
  else [ch]

/-- Escape every character of a string body. -/
def escapeList : List Char → List Char
  | [] => []
  | ch :: rest => escapeChar ch ++ escapeList rest

/-- Decimal digits of a natural number, most significant first. -/
def natDumpChars (n : Nat) : List Char :=
  if n = 0 then ['0'] else ((Nat.digits 10 n).map Nat.digitChar).reverse

/-- Decimal token of an integer. -/
def intDumpChars (i : Int) : List Char :=
  if i < 0 then '-' :: natDumpChars i.natAbs else natDumpChars i.toNat

/-- The characters of the `null` literal. -/
def nullChars : List Char := ['n', 'u', 'l', 'l']

/-- The characters of the `true` literal. -/
def trueChars : List Char := ['t', 'r', 'u', 'e']

/-- The characters of the `false` literal. -/
def falseChars : List Char := ['f', 'a', 'l', 's', 'e']

/-- The opening-brace character of JSON object syntax. -/
def lbrace : Char := Char.ofNat 123

/-- The closing-brace character of JSON object syntax. -/
def rbrace : Char := Char.ofNat 125

mutual

/-- Compact serialization (`nlohmann::json::dump()` with no indent), as a
character list. -/
def dumpChars : Json → List Char
  | .null => nullChars
  | .bool true => trueChars
  | .bool false => falseChars
  | .int n => intDumpChars n
  | .double d => d.repr.toList
  | .str s => '"' :: escapeList s.toList ++ ['"']
  | .arr [] => ['[', ']']
  | .arr (j :: rest) =>
      '[' :: dumpChars j ++ dumpMoreElems rest ++ [']']
  | .obj [] => [lbrace, rbrace]
  | .obj ((k, v) :: rest) =>
      lbrace :: ('"' :: escapeList k.toList ++ ['"', ':'] ++ dumpChars v)
        ++ dumpMoreFields rest ++ [rbrace]

/-- Serialization of the second and later array elements, each preceded by a
comma. -/
def dumpMoreElems : List Json → List Char
  | [] => []
  | j :: rest => ',' :: dumpChars j ++ dumpMoreElems rest

/-- Serialization of the second and later object fields, each preceded by a
comma. -/
def dumpMoreFields : List (String × Json) → List Char
  | [] => []
  | (k, v) :: rest =>
      ',' :: ('"' :: escapeList k.toList ++ ['"', ':'] ++ dumpChars v)
        ++ dumpMoreFields rest

end

/-- `data.dump()`: the serialized blob of a JSON document. -/
def Json.dump (j : Json) : String := String.mk (dumpChars j)

/-- The `RedisClient` object state: the connection handle (abstracted to an
identifier; `none` models a null `redisContext*`), the constructor arguments,
and the `connected` flag. -/
structure RedisClient where
  context : Option Nat
  host : String
  port : Int
  connected : Bool
deriving DecidableEq, Repr

/-- Result of one member-function call: the returned value, the client
object after the call, the store after the call, and the trace of commands
sent to the store during the call. -/
structure OpResult (α : Type) where
  ret : α
  client : RedisClient
  store : Store
  trace : List Command

/-- `storeStockData`'s success test on the SET reply:
`reply->type == REDIS_REPLY_STATUS && std::string(reply->str) == "OK"`. -/
def quoteSetSuccess (r : RedisReply) : Bool :=
  decide (r.rtype = RType.status ∧ r.str = "OK")

/-- `storeTradingSignal`'s success test on the SET reply:
`reply->type == REDIS_REPLY_STATUS` (the status string is not compared). -/
def signalSetSuccess (r : RedisReply) : Bool :=
  decide (r.rtype = RType.status)

/-- `publishMarketUpdate`'s success test on the PUBLISH reply:
`reply->type == REDIS_REPLY_INTEGER` (the integer value is not read). -/
def publishSuccess (r : RedisReply) : Bool :=
  decide (r.rtype = RType.integer)

/-- `RedisClient::storeStockData(symbol, data)`: fail fast when not
connected; `SET stock:current:<symbol> data.dump()`; a null reply or a reply
failing `quoteSetSuccess` returns false; on success, `LPUSH
stock:history:<symbol>` then `LTRIM stock:history:<symbol> 0 999`, both
replies only freed, and the call returns true. -/
def storeStockData (exec : Exec) (c : RedisClient) (st : Store)
    (symbol : String) (data : Json) : OpResult Bool :=
  if !c.connected then ⟨false, c, st, []⟩
  else
    let key := "stock:current:" ++ symbol
    let json_str := data.dump
    match exec st (.set key json_str) with
    | (none, st1) => ⟨false, c, st1, [.set key json_str]⟩
    | (some reply, st1) =>
      if quoteSetSuccess reply then
        let hist_key := "stock:history:" ++ symbol
        let st2 := (exec st1 (.lpush hist_key json_str)).2
        let st3 := (exec st2 (.ltrim hist_key 0 999)).2
        ⟨true, c, st3,
          [.set key json_str, .lpush hist_key json_str, .ltrim hist_key 0 999]⟩
      else ⟨false, c, st1, [.set key json_str]⟩

/-- The signal document `storeTradingSignal` builds.  The C++ initializer
lists the fields as symbol, signal, reason, confidence, timestamp, source;
`nlohmann::json` stores object keys sorted, which yields this order. -/
def signalDoc (symbol signal reason : String) (confidence : CDouble)
    (timestamp : Int) : Json :=
  Json.obj
    [("confidence", Json.double confidence),
     ("reason", Json.str reason),
     ("signal", Json.str signal),
     ("source", Json.str "cpp_engine"),
     ("symbol", Json.str symbol),
     ("timestamp", Json.int timestamp)]

/-- `RedisClient::storeTradingSignal(symbol, signal, reason, confidence)`:
fail fast (silently) when not connected; build the signal document — `now`
is the value `std::time(nullptr)` returns during the call — and `SET
signal:latest:<symbol>`; a null reply returns false; a reply of status type
(any value) is success, upon which the same blob is `LPUSH`ed onto
`signals:stream` with the reply only freed. -/
def storeTradingSignal (exec : Exec) (c : RedisClient) (st : Store)
    (symbol signal reason : String) (confidence : CDouble) (now : Int) :
    OpResult Bool :=
  if !c.connected then ⟨false, c, st, []⟩
  else
    let signal_data := signalDoc symbol signal reason confidence now
    let key := "signal:latest:" ++ symbol
    let json_str := signal_data.dump
    match exec st (.set key json_str) with
    | (none, st1) => ⟨false, c, st1, [.set key json_str]⟩
    | (some reply, st1) =>
      if signalSetSuccess reply then
        let stream_key := "signals:stream"
        let st2 := (exec st1 (.lpush stream_key json_str)).2
        ⟨true, c, st2, [.set key json_str, .lpush stream_key json_str]⟩
      else ⟨false, c, st1, [.set key json_str]⟩

/-- `RedisClient::getStockData(symbol)`: empty string when not connected;
`GET stock:current:<symbol>`; a null reply or a reply that is not of string
type yields the empty string, otherwise the reply's string payload. -/
def getStockData (exec : Exec) (c : RedisClient) (st : Store)
    (symbol : String) : OpResult String :=
  if !c.connected then ⟨"", c, st, []⟩
  else
    let key := "stock:current:" ++ symbol
    match exec st (.get key) with
    | (none, st1) => ⟨"", c, st1, [.get key]⟩
    | (some reply, st1) =>
      if reply.rtype = RType.rstring then ⟨reply.str, c, st1, [.get key]⟩
      else ⟨"", c, st1, [.get key]⟩

/-- `RedisClient::publishMarketUpdate(channel, data)`: false when not
connected; `PUBLISH <channel> data.dump()`; a null reply is false, otherwise
success is the reply being of integer type. -/
def publishMarketUpdate (exec : Exec) (c : RedisClient) (st : Store)
    (channel : String) (data : Json) : OpResult Bool :=
  if !c.connected then ⟨false, c, st, []⟩
  else
    let json_str := data.dump
    match exec st (.publish channel json_str) with
    | (none, st1) => ⟨false, c, st1, [.publish channel json_str]⟩
    | (some reply, st1) =>
      ⟨publishSuccess reply, c, st1, [.publish channel json_str]⟩

/-- `key.find_last_of(':')` followed by `key.substr(pos + 1)`: the text
after the last colon, when the key has one. -/
def extractSymbol (key : String) : Option String :=
  let chars := key.toList
  if chars.contains ':' then
    some (String.mk ((chars.reverse.takeWhile (fun ch => ch ≠ ':')).reverse))
  else none

/-- `RedisClient::getAvailableSymbols()`: empty when not connected; `KEYS
stock:current:*`; when the reply is an array, each element's string is
reduced to the text after its last colon and collected in order; any other
reply yields the empty vector. -/
def getAvailableSymbols (exec : Exec) (c : RedisClient) (st : Store) :
    OpResult (List String) :=
  if !c.connected then ⟨[], c, st, []⟩
  else
    match exec st (.keys "stock:current:*") with
    | (none, st1) => ⟨[], c, st1, [.keys "stock:current:*"]⟩
    | (some reply, st1) =>
      if reply.rtype = RType.array then
        ⟨reply.elements.filterMap (fun e => extractSymbol e.str), c, st1,
          [.keys "stock:current:*"]⟩
      else ⟨[], c, st1, [.keys "stock:current:*"]⟩

/-- C10: every operation other than connect returns the client object
unchanged — the five member functions never write `context`, `host`, `port`
or `connected`, whether they succeed or fail, so only `connect` (and
destruction) can change connection state. -/
theorem ops_leave_client_unchanged (exec : Exec) (c : RedisClient) (st : Store)
    (symbol channel signal reason : String) (confidence : CDouble) (now : Int)
    (data : Json) :
    (storeStockData exec c st symbol data).client = c ∧
    (storeTradingSignal exec c st symbol signal reason confidence now).client = c ∧
    (getStockData exec c st symbol).client = c ∧
    (publishMarketUpdate exec c st channel data).client = c ∧
    (getAvailableSymbols exec c st).client = c := by
  refine ⟨?_, ?_, ?_, ?_, ?_⟩ <;>
    simp only [storeStockData, storeTradingSignal, getStockData,
      publishMarketUpdate, getAvailableSymbols] <;>
    (repeat' split) <;> rfl

/-- C4: when the client is disconnected, each of the five operations returns
its failure sentinel (false, false, empty blob, false, empty vector), sends
no command to the store, and leaves the store untouched. -/
theorem disconnected_short_circuit (exec : Exec) (c : RedisClient) (st : Store)
    (symbol channel signal reason : String) (confidence : CDouble) (now : Int)
    (data : Json) (h : c.connected = false) :
    (storeStockData exec c st symbol data
      = ⟨false, c, st, []⟩) ∧
    (storeTradingSignal exec c st symbol signal reason confidence now
      = ⟨false, c, st, []⟩) ∧
    (getStockData exec c st symbol = ⟨"", c, st, []⟩) ∧
    (publishMarketUpdate exec c st channel data = ⟨false, c, st, []⟩) ∧
    (getAvailableSymbols exec c st = ⟨[], c, st, []⟩) := by
  refine ⟨?_, ?_, ?_, ?_, ?_⟩ <;>
    simp [storeStockData, storeTradingSignal, getStockData,
      publishMarketUpdate, getAvailableSymbols, h]

/-- Closed instance of `disconnected_short_circuit` at a concrete
disconnected client, store and arguments. -/
theorem disconnected_short_circuit_witness :
    (RedisClient.mk none "localhost" 6379 false).connected = false ∧
    (storeStockData redisExec (RedisClient.mk none "localhost" 6379 false)
        (Store.mk [] []) "AAPL" (Json.int 1)
      = ⟨false, RedisClient.mk none "localhost" 6379 false, Store.mk [] [], []⟩) ∧
    (getStockData redisExec (RedisClient.mk none "localhost" 6379 false)
        (Store.mk [] []) "AAPL"
      = ⟨"", RedisClient.mk none "localhost" 6379 false, Store.mk [] [], []⟩) :=
  ⟨by decide,
   (disconnected_short_circuit redisExec _ _ "AAPL" "ch" "BUY" "momentum"
      ⟨"0.8"⟩ 1700000000 (Json.int 1) rfl).1,
   (disconnected_short_circuit redisExec _ _ "AAPL" "ch" "BUY" "momentum"
      ⟨"0.8"⟩ 1700000000 (Json.int 1) rfl).2.2.1⟩

/-- C5: a connected `storeStockData` call returns true exactly when the SET
reply is non-null, of status type, and its string is literally "OK". -/
theorem storeStockData_success_iff (exec : Exec) (c : RedisClient) (st : Store)
    (symbol : String) (data : Json) (h : c.connected = true) :
    (storeStockData exec c st symbol data).ret = true ↔
      ∃ r, (exec st (.set ("stock:current:" ++ symbol) data.dump)).1 = some r ∧
        r.rtype = RType.status ∧ r.str = "OK" := by
  rcases hx : exec st (.set ("stock:current:" ++ symbol) data.dump) with ⟨r?, st1⟩
  rcases r? with _ | r
  · simp [storeStockData, h, hx]
  · by_cases hs : r.rtype = RType.status ∧ r.str = "OK"
    · simp [storeStockData, h, hx, quoteSetSuccess, hs.1, hs.2]
    · simp only [storeStockData, h, Bool.not_true, hx, quoteSetSuccess]
      rw [decide_eq_false hs]
      simp only [if_false, Bool.false_eq_true, false_iff]
      rintro ⟨r', hr', ht, hv⟩
      rw [Option.some.injEq] at hr'
      exact hs (hr' ▸ ⟨ht, hv⟩)

/-- Closed instance of `storeStockData_success_iff` on the healthy store:
the SET reply is `+OK`, so the call returns true. -/
theorem storeStockData_success_iff_witness :
    (RedisClient.mk (some 1) "localhost" 6379 true).connected = true ∧
    ((storeStockData redisExec (RedisClient.mk (some 1) "localhost" 6379 true)
        (Store.mk [] []) "AAPL" (Json.int 1)).ret = true ↔
      ∃ r, (redisExec (Store.mk [] [])
          (.set ("stock:current:" ++ "AAPL") (Json.int 1).dump)).1 = some r ∧
        r.rtype = RType.status ∧ r.str = "OK") :=
  ⟨rfl, storeStockData_success_iff redisExec _ _ "AAPL" (Json.int 1) rfl⟩

/-- C2: once the SET reply confirms success, `storeStockData` returns true
for every store behaviour — in particular when the follow-on LPUSH and LTRIM
get null or error replies, which the code only frees and never checks. -/
theorem storeStockData_true_despite_history_failure (exec : Exec)
    (c : RedisClient) (st : Store) (symbol : String) (data : Json)
    (r : RedisReply) (h : c.connected = true)
    (hr : (exec st (.set ("stock:current:" ++ symbol) data.dump)).1 = some r)
    (hs : quoteSetSuccess r = true) :
    (storeStockData exec c st symbol data).ret = true := by
  rcases hx : exec st (.set ("stock:current:" ++ symbol) data.dump) with ⟨r?, st1⟩
  rw [hx] at hr
  simp only at hr
  subst hr
  simp [storeStockData, h, hx, hs]

/-- Closed instance of `storeStockData_true_despite_history_failure` with a
store behaviour whose SET replies `+OK` but whose LPUSH and LTRIM return
null replies: the call still returns true. -/
theorem storeStockData_true_despite_history_failure_witness :
    (RedisClient.mk (some 1) "localhost" 6379 true).connected = true ∧
    ((fun (st : Store) (cmd : Command) =>
        match cmd with
        | .set _ _ => (some (statusReply "OK"), st)
        | _ => ((none : Option RedisReply), st) : Exec) (Store.mk [] [])
        (.set ("stock:current:" ++ "AAPL") (Json.int 1).dump)).1
      = some (statusReply "OK") ∧
    quoteSetSuccess (statusReply "OK") = true ∧
    (storeStockData
      (fun (st : Store) (cmd : Command) =>
        match cmd with
        | .set _ _ => (some (statusReply "OK"), st)
        | _ => ((none : Option RedisReply), st))
      (RedisClient.mk (some 1) "localhost" 6379 true)
      (Store.mk [] []) "AAPL" (Json.int 1)).ret = true :=
  ⟨rfl, rfl, by decide,
    storeStockData_true_despite_history_failure _ _ _ "AAPL" (Json.int 1)
      (statusReply "OK") rfl rfl (by decide)⟩

/-- C3: a connected `storeStockData` call whose SET reply is null or fails
the success test returns false and issues only the SET — no LPUSH and no
LTRIM — so as long as the SET does not touch list keys (it never does in
Redis), the history sequence of the symbol is unchanged. -/
theorem storeStockData_failed_set_no_history (exec : Exec) (c : RedisClient)
    (st : Store) (symbol : String) (data : Json) (h : c.connected = true)
    (hfail : (exec st (.set ("stock:current:" ++ symbol) data.dump)).1 = none ∨
      ∃ r, (exec st (.set ("stock:current:" ++ symbol) data.dump)).1 = some r ∧
        quoteSetSuccess r = false)
    (hset : ((exec st (.set ("stock:current:" ++ symbol) data.dump)).2).lists
      = st.lists) :
    (storeStockData exec c st symbol data).ret = false ∧
    (storeStockData exec c st symbol data).trace
      = [.set ("stock:current:" ++ symbol) data.dump] ∧
    ((storeStockData exec c st symbol data).store).lists = st.lists ∧
    ((storeStockData exec c st symbol data).store).getList
        ("stock:history:" ++ symbol)
      = st.getList ("stock:history:" ++ symbol) := by
  rcases hx : exec st (.set ("stock:current:" ++ symbol) data.dump) with ⟨r?, st1⟩
  rw [hx] at hfail hset
  simp only at hfail hset
  rcases r? with _ | r
  · exact ⟨by simp [storeStockData, h, hx], by simp [storeStockData, h, hx],
      by simp [storeStockData, h, hx, hset],
      by simp [storeStockData, Store.getList, h, hx, hset]⟩
  · rcases hfail with hnone | ⟨r', hr', hs⟩
    · exact absurd hnone (by simp)
    · rw [Option.some.injEq] at hr'
      subst hr'
      exact ⟨by simp [storeStockData, h, hx, hs], by simp [storeStockData, h, hx, hs],
        by simp [storeStockData, h, hx, hs, hset],
        by simp [storeStockData, Store.getList, h, hx, hs, hset]⟩

/-- Closed instance of `storeStockData_failed_set_no_history` with a store
behaviour whose SET replies `-ERR`: the call returns false, only the SET is
issued, and the history list is untouched. -/
theorem storeStockData_failed_set_no_history_witness :
    (RedisClient.mk (some 1) "localhost" 6379 true).connected = true ∧
    (storeStockData
      (fun (st : Store) (_ : Command) => (some (errorReply "ERR down"), st))
      (RedisClient.mk (some 1) "localhost" 6379 true)
      (Store.mk [] [("stock:history:AAPL", ["old"])]) "AAPL" (Json.int 1)).ret
      = false ∧
    (storeStockData
      (fun (st : Store) (_ : Command) => (some (errorReply "ERR down"), st))
      (RedisClient.mk (some 1) "localhost" 6379 true)
      (Store.mk [] [("stock:history:AAPL", ["old"])]) "AAPL" (Json.int 1)).store.getList
        ("stock:history:" ++ "AAPL")
      = (Store.mk [] [("stock:history:AAPL", ["old"])]).getList
          ("stock:history:" ++ "AAPL") :=
  ⟨rfl,
    (storeStockData_failed_set_no_history _ _ _ "AAPL" (Json.int 1) rfl
      (Or.inr ⟨errorReply "ERR down", rfl, by decide⟩) rfl).1,
    (storeStockData_failed_set_no_history _ _ _ "AAPL" (Json.int 1) rfl
      (Or.inr ⟨errorReply "ERR down", rfl, by decide⟩) rfl).2.2.2⟩

/-- C6: a connected `storeTradingSignal` call returns true exactly when the
SET reply is non-null and of status type — the status string is never
compared — and this success test is strictly looser than `storeStockData`'s
exact "OK" match. -/
theorem storeTradingSignal_success_iff (exec : Exec) (c : RedisClient)
    (st : Store) (symbol signal reason : String) (confidence : CDouble)
    (now : Int) (h : c.connected = true) :
    ((storeTradingSignal exec c st symbol signal reason confidence now).ret = true ↔
      ∃ r, (exec st (.set ("signal:latest:" ++ symbol)
          (signalDoc symbol signal reason confidence now).dump)).1 = some r ∧
        r.rtype = RType.status) ∧
    (∀ r, quoteSetSuccess r = true → signalSetSuccess r = true) ∧
    (∃ r, signalSetSuccess r = true ∧ quoteSetSuccess r = false) := by
  refine ⟨?_, ?_, ⟨statusReply "QUEUED", by decide, by decide⟩⟩
  · rcases hx : exec st (.set ("signal:latest:" ++ symbol)
        (signalDoc symbol signal reason confidence now).dump) with ⟨r?, st1⟩
    rcases r? with _ | r
    · simp [storeTradingSignal, h, hx]
    · by_cases hs : r.rtype = RType.status
      · simp [storeTradingSignal, h, hx, signalSetSuccess, hs]
      · simp only [storeTradingSignal, h, Bool.not_true, hx, signalSetSuccess]
        rw [decide_eq_false hs]
        simp only [if_false, Bool.false_eq_true, false_iff]
        rintro ⟨r', hr', ht⟩
        rw [Option.some.injEq] at hr'
        exact hs (hr' ▸ ht)
  · intro r hq
    simp only [quoteSetSuccess, decide_eq_true_eq] at hq
    simp [signalSetSuccess, hq.1]

/-- Closed instance of `storeTradingSignal_success_iff` on the healthy
store. -/
theorem storeTradingSignal_success_iff_witness :
    (RedisClient.mk (some 1) "localhost" 6379 true).connected = true ∧
    (((storeTradingSignal redisExec (RedisClient.mk (some 1) "localhost" 6379 true)
        (Store.mk [] []) "AAPL" "BUY" "momentum" ⟨"0.8"⟩ 1700000000).ret = true ↔
      ∃ r, (redisExec (Store.mk [] []) (.set ("signal:latest:" ++ "AAPL")
          (signalDoc "AAPL" "BUY" "momentum" ⟨"0.8"⟩ 1700000000).dump)).1 = some r ∧
        r.rtype = RType.status) ∧
    (∀ r, quoteSetSuccess r = true → signalSetSuccess r = true) ∧
    (∃ r, signalSetSuccess r = true ∧ quoteSetSuccess r = false)) :=
  ⟨rfl, storeTradingSignal_success_iff redisExec _ _ "AAPL" "BUY" "momentum"
    ⟨"0.8"⟩ 1700000000 rfl⟩

/-- C8: a connected `publishMarketUpdate` call returns true exactly when the
PUBLISH reply is non-null and of integer type; the integer value is never
read, and on the healthy store — whose channels have zero subscribers, so
the reply is the integer 0 — the call returns true. -/
theorem publishMarketUpdate_success_iff (exec : Exec) (c : RedisClient)
    (st : Store) (channel : String) (data : Json) (h : c.connected = true) :
    ((publishMarketUpdate exec c st channel data).ret = true ↔
      ∃ r, (exec st (.publish channel data.dump)).1 = some r ∧
        r.rtype = RType.integer) ∧
    (publishMarketUpdate redisExec c st channel data).ret = true := by
  constructor
  · rcases hx : exec st (.publish channel data.dump) with ⟨r?, st1⟩
    rcases r? with _ | r
    · simp [publishMarketUpdate, h, hx]
    · by_cases hs : r.rtype = RType.integer
      · simp [publishMarketUpdate, h, hx, publishSuccess, hs]
      · simp only [publishMarketUpdate, h, Bool.not_true, hx, publishSuccess]
        rw [decide_eq_false hs]
        simp only [if_false, Bool.false_eq_true, false_iff]
        rintro ⟨r', hr', ht⟩
        rw [Option.some.injEq] at hr'
        exact hs (hr' ▸ ht)
  · simp [publishMarketUpdate, h, redisExec, publishSuccess, intReply,
      RedisReply.rtype]

/-- Closed instance of `publishMarketUpdate_success_iff`: publishing on the
healthy store with no subscribers returns true. -/
theorem publishMarketUpdate_success_iff_witness :
    (RedisClient.mk (some 1) "localhost" 6379 true).connected = true ∧
    (publishMarketUpdate redisExec (RedisClient.mk (some 1) "localhost" 6379 true)
      (Store.mk [] []) "market_updates" (Json.int 1)).ret = true :=
  ⟨rfl, (publishMarketUpdate_success_iff redisExec _ (Store.mk [] [])
    "market_updates" (Json.int 1) rfl).2⟩

/-- Looking up the key just updated yields the new value. -/
theorem lookup_updEntry_self {α : Type} (m : List (String × α)) (k : String)
    (v : α) : (updEntry m k v).lookup k = some v := by
  induction m with
  | nil => simp [updEntry, List.lookup]
  | cons hd tl ih =>
    obtain ⟨k', v'⟩ := hd
    by_cases hk : k' = k
    · subst hk; simp [updEntry, List.lookup]
    · have hb : (k == k') = false := beq_eq_false_iff_ne.mpr (Ne.symm hk)
      simp [updEntry, hk, List.lookup, hb, ih]

/-- Looking up a different key is unaffected by an update. -/
theorem lookup_updEntry_ne {α : Type} (m : List (String × α)) (k k' : String)
    (v : α) (h : k' ≠ k) : (updEntry m k v).lookup k' = m.lookup k' := by
  have hb : (k' == k) = false := beq_eq_false_iff_ne.mpr h
  induction m with
  | nil => simp [updEntry, List.lookup, hb]
  | cons hd tl ih =>
    obtain ⟨k0, v0⟩ := hd
    by_cases hk : k0 = k
    · subst hk; simp [updEntry, List.lookup, hb]
    · simp [updEntry, hk, List.lookup, ih]

/-- Updating the same key twice keeps only the second value. -/
theorem updEntry_updEntry {α : Type} (m : List (String × α)) (k : String)
    (v w : α) : updEntry (updEntry m k v) k w = updEntry m k w := by
  induction m with
  | nil => simp [updEntry]
  | cons hd tl ih =>
    obtain ⟨k0, v0⟩ := hd
    by_cases hk : k0 = k
    · subst hk; simp [updEntry]
    · simp [updEntry, hk, ih]

/-- `LTRIM key 0 999` keeps the newest 1000 entries. -/
theorem trimRange_eq_take (l : List String) : trimRange l 0 999 = l.take 1000 := by
  simp [trimRange]

/-- One connected `storeStockData` call against the healthy store: it
returns true, rewrites the quote key to the blob, and replaces the history
list with the blob prepended and the result truncated to 1000 entries. -/
theorem storeStockData_redis_step (c : RedisClient) (st : Store)
    (symbol : String) (data : Json) (h : c.connected = true) :
    storeStockData redisExec c st symbol data =
      ⟨true, c,
        Store.mk (updEntry st.kv ("stock:current:" ++ symbol) data.dump)
          (updEntry st.lists ("stock:history:" ++ symbol)
            ((data.dump :: st.getList ("stock:history:" ++ symbol)).take 1000)),
        [.set ("stock:current:" ++ symbol) data.dump,
         .lpush ("stock:history:" ++ symbol) data.dump,
         .ltrim ("stock:history:" ++ symbol) 0 999]⟩ := by
  simp [storeStockData, h, redisExec, quoteSetSuccess, statusReply,
    RedisReply.rtype, RedisReply.str, Store.getList, lookup_updEntry_self,
    updEntry_updEntry, trimRange_eq_take]

/-- A sequence of `storeStockData` calls for one symbol, threading the store
through and conjoining the returned flags. -/
def writeQuotes (exec : Exec) (c : RedisClient) (symbol : String) :
    Store → List Json → Bool × Store
  | st, [] => (true, st)
  | st, d :: ds =>
    let r := storeStockData exec c st symbol d
    let rest := writeQuotes exec c symbol r.store ds
    (r.ret && rest.1, rest.2)

/-- Truncating the tail before appending does not change a truncated
append. -/
theorem take_append_take {α : Type} (xs l : List α) (n : Nat) :
    (xs ++ l.take n).take n = (xs ++ l).take n := by
  rw [List.take_append_eq_append_take, List.take_append_eq_append_take,
    List.take_take]
  congr 1
  exact congrArg (List.take · l) (Nat.min_eq_left (Nat.sub_le n xs.length))

/-- Healthy-store characterization of a write sequence: every call returns
true, and a nonempty sequence leaves the history equal to the reversed list
of written blobs prepended to the initial history, truncated to 1000. -/
theorem writeQuotes_redis (c : RedisClient) (symbol : String)
    (h : c.connected = true) :
    ∀ (ds : List Json) (st : Store),
      (writeQuotes redisExec c symbol st ds).1 = true ∧
      ((ds = [] ∧ (writeQuotes redisExec c symbol st ds).2 = st) ∨
        (writeQuotes redisExec c symbol st ds).2.getList
            ("stock:history:" ++ symbol)
          = ((ds.map Json.dump).reverse
              ++ st.getList ("stock:history:" ++ symbol)).take 1000) := by
  intro ds
  induction ds with
  | nil => exact fun st => ⟨rfl, Or.inl ⟨rfl, rfl⟩⟩
  | cons d ds ih =>
    intro st
    have hstep := storeStockData_redis_step c st symbol d h
    obtain ⟨ih1, ih2⟩ := ih (Store.mk
      (updEntry st.kv ("stock:current:" ++ symbol) d.dump)
      (updEntry st.lists ("stock:history:" ++ symbol)
        ((d.dump :: st.getList ("stock:history:" ++ symbol)).take 1000)))
    have hgl : (Store.mk
        (updEntry st.kv ("stock:current:" ++ symbol) d.dump)
        (updEntry st.lists ("stock:history:" ++ symbol)
          ((d.dump :: st.getList ("stock:history:" ++ symbol)).take 1000))).getList
          ("stock:history:" ++ symbol)
        = (d.dump :: st.getList ("stock:history:" ++ symbol)).take 1000 := by
      simp [Store.getList, lookup_updEntry_self]
    have hw : writeQuotes redisExec c symbol st (d :: ds)
        = ((true && (writeQuotes redisExec c symbol (Store.mk
            (updEntry st.kv ("stock:current:" ++ symbol) d.dump)
            (updEntry st.lists ("stock:history:" ++ symbol)
              ((d.dump :: st.getList ("stock:history:" ++ symbol)).take 1000))) ds).1),
           (writeQuotes redisExec c symbol (Store.mk
            (updEntry st.kv ("stock:current:" ++ symbol) d.dump)
            (updEntry st.lists ("stock:history:" ++ symbol)
              ((d.dump :: st.getList ("stock:history:" ++ symbol)).take 1000))) ds).2) := by
      simp only [writeQuotes]
      rw [hstep]
    rw [hw]
    refine ⟨by simpa using ih1, Or.inr ?_⟩
    rcases ih2 with ⟨hnil, hst⟩ | heq
    · subst hnil
      simp only
      rw [hst, hgl]
      simp
    · simp only
      rw [heq, hgl, take_append_take]
      simp [List.append_assoc]

/-- C1: for any symbol, connected client and sequence of quote writes
against the healthy store, every `storeStockData` call succeeds, each one
prepends the serialized blob to the symbol's history and truncates it to
the newest-first 1000 (so a nonempty sequence leaves the history equal to
the reversed blob list prepended to the initial history, truncated to
1000), the history length never exceeds 1000 once the initial history does
not, and after at least 1000 writes the history is exactly the 1000
most-recently-written blobs, newest first, with length exactly 1000. -/
theorem history_cap_invariant (c : RedisClient) (st : Store) (symbol : String)
    (ds : List Json) (h : c.connected = true) :
    (writeQuotes redisExec c symbol st ds).1 = true ∧
    (ds ≠ [] → (writeQuotes redisExec c symbol st ds).2.getList
        ("stock:history:" ++ symbol)
      = ((ds.map Json.dump).reverse
          ++ st.getList ("stock:history:" ++ symbol)).take 1000) ∧
    ((st.getList ("stock:history:" ++ symbol)).length ≤ 1000 →
      ((writeQuotes redisExec c symbol st ds).2.getList
        ("stock:history:" ++ symbol)).length ≤ 1000) ∧
    (1000 ≤ ds.length →
      (writeQuotes redisExec c symbol st ds).2.getList
          ("stock:history:" ++ symbol)
        = ((ds.map Json.dump).reverse).take 1000 ∧
      ((writeQuotes redisExec c symbol st ds).2.getList
        ("stock:history:" ++ symbol)).length = 1000) := by
  obtain ⟨h1, h2⟩ := writeQuotes_redis c symbol h ds st
  refine ⟨h1, ?_, ?_, ?_⟩
  · intro hne
    rcases h2 with ⟨hnil, _⟩ | heq
    · exact absurd hnil hne
    · exact heq
  · intro h0
    rcases h2 with ⟨_, hst⟩ | heq
    · rw [hst]; exact h0
    · rw [heq, List.length_take]
      exact le_trans (Nat.min_le_left _ _) (le_refl 1000)
  · intro hlen
    have hne : ds ≠ [] := by
      intro hnil; rw [hnil] at hlen; simp at hlen
    rcases h2 with ⟨hnil, _⟩ | heq
    · exact absurd hnil hne
    · have hrl : 1000 ≤ ((ds.map Json.dump).reverse).length := by
        rw [List.length_reverse, List.length_map]; exact hlen
      constructor
      · rw [heq, List.take_append_of_le_length hrl]
      · rw [heq, List.take_append_of_le_length hrl, List.length_take]
        rw [List.length_reverse, List.length_map]
        exact Nat.min_eq_left hlen

/-- Closed instance of `history_cap_invariant`: 1000 writes starting from an
empty store leave exactly the 1000 newest blobs. -/
theorem history_cap_invariant_witness :
    (RedisClient.mk (some 1) "localhost" 6379 true).connected = true ∧
    1000 ≤ (List.replicate 1000 (Json.int 1)).length ∧
    ((writeQuotes redisExec (RedisClient.mk (some 1) "localhost" 6379 true)
        "AAPL" (Store.mk [] []) (List.replicate 1000 (Json.int 1))).2.getList
        ("stock:history:" ++ "AAPL")
      = (((List.replicate 1000 (Json.int 1)).map Json.dump).reverse).take 1000 ∧
    ((writeQuotes redisExec (RedisClient.mk (some 1) "localhost" 6379 true)
        "AAPL" (Store.mk [] []) (List.replicate 1000 (Json.int 1))).2.getList
        ("stock:history:" ++ "AAPL")).length = 1000) :=
  ⟨rfl, le_of_eq (List.length_replicate 1000 (Json.int 1)).symm,
    (history_cap_invariant (RedisClient.mk (some 1) "localhost" 6379 true)
      (Store.mk [] []) "AAPL" (List.replicate 1000 (Json.int 1)) rfl).2.2.2
      (le_of_eq (List.length_replicate 1000 (Json.int 1)).symm)⟩

/-- One connected `storeTradingSignal` call against the healthy store: it
returns true, rewrites the latest-signal key to the serialized document, and
prepends the same document to the shared signal queue. -/
theorem storeTradingSignal_redis_step (c : RedisClient) (st : Store)
    (symbol signal reason : String) (confidence : CDouble) (now : Int)
    (h : c.connected = true) :
    storeTradingSignal redisExec c st symbol signal reason confidence now =
      ⟨true, c,
        Store.mk (updEntry st.kv ("signal:latest:" ++ symbol)
            (signalDoc symbol signal reason confidence now).dump)
          (updEntry st.lists "signals:stream"
            ((signalDoc symbol signal reason confidence now).dump
              :: st.getList "signals:stream")),
        [.set ("signal:latest:" ++ symbol)
            (signalDoc symbol signal reason confidence now).dump,
         .lpush "signals:stream"
            (signalDoc symbol signal reason confidence now).dump]⟩ := by
  simp [storeTradingSignal, h, redisExec, signalSetSuccess, statusReply,
    RedisReply.rtype, Store.getList]

/-- C7: a successful `storeTradingSignal` call prepends exactly one entry to
the shared queue `signals:stream` — its length grows by one — and the new
head equals the serialized signal document just written to
`signal:latest:<symbol>`: the JSON object with the given symbol, signal,
reason and confidence, the timestamp `now` that `std::time` returned during
the call, and source "cpp_engine" (see `signalDoc`). -/
theorem signal_queue_side_effect (c : RedisClient) (st : Store)
    (symbol signal reason : String) (confidence : CDouble) (now : Int)
    (h : c.connected = true) :
    (storeTradingSignal redisExec c st symbol signal reason confidence now).ret
      = true ∧
    (storeTradingSignal redisExec c st symbol signal reason confidence
        now).store.getList "signals:stream"
      = (signalDoc symbol signal reason confidence now).dump
          :: st.getList "signals:stream" ∧
    ((storeTradingSignal redisExec c st symbol signal reason confidence
        now).store.getList "signals:stream").length
      = (st.getList "signals:stream").length + 1 ∧
    (storeTradingSignal redisExec c st symbol signal reason confidence
        now).store.getKV ("signal:latest:" ++ symbol)
      = some (signalDoc symbol signal reason confidence now).dump := by
  rw [storeTradingSignal_redis_step c st symbol signal reason confidence now h]
  refine ⟨rfl, ?_, ?_, ?_⟩
  · simp [Store.getList, lookup_updEntry_self]
  · simp [Store.getList, lookup_updEntry_self]
  · simp [Store.getKV, lookup_updEntry_self]

/-- Closed instance of `signal_queue_side_effect` at concrete arguments. -/
theorem signal_queue_side_effect_witness :
    (RedisClient.mk (some 1) "localhost" 6379 true).connected = true ∧
    (storeTradingSignal redisExec (RedisClient.mk (some 1) "localhost" 6379 true)
        (Store.mk [] [("signals:stream", ["older"])]) "AAPL" "BUY" "momentum"
        ⟨"0.8"⟩ 1700000000).store.getList "signals:stream"
      = (signalDoc "AAPL" "BUY" "momentum" ⟨"0.8"⟩ 1700000000).dump
          :: (Store.mk [] [("signals:stream", ["older"])]).getList "signals:stream" :=
  ⟨rfl,
    (signal_queue_side_effect (RedisClient.mk (some 1) "localhost" 6379 true)
      (Store.mk [] [("signals:stream", ["older"])]) "AAPL" "BUY" "momentum"
      ⟨"0.8"⟩ 1700000000 rfl).2.1⟩

/-- The serialized form of one object field: quoted escaped key, colon,
serialized value. -/
def fieldChars (k : String) (v : Json) : List Char :=
  '"' :: escapeList k.toList ++ ['"', ':'] ++ dumpChars v

/-- Characters that can occur in a JSON number token. -/
def numAlpha (ch : Char) : Bool :=
  ch.isDigit || ch = '-' || ch = '+' || ch = '.' || ch = 'e' || ch = 'E'

/-- Decimal decoding of a digit string, most significant first. -/
def decodeDigits (cs : List Char) : Nat :=
  cs.foldl (fun acc ch => acc * 10 + (ch.toNat - 48)) 0

/-- Decoding of a signed decimal token. -/
def decodeIntToken (cs : List Char) : Int :=
  match cs with
  | [] => 0
  | ch :: rest =>
      if ch = '-' then -(decodeDigits rest : Int) else (decodeDigits cs : Int)

/-- A number token denotes a double when it has a fraction or exponent
mark. -/
def tokenIsDouble (cs : List Char) : Bool :=
  cs.any (fun ch => ch = '.' || ch = 'e' || ch = 'E')

/-- Inverse of `escapeChar` on escape codes. -/
def unescapeChar (ch : Char) : Option Char :=
  if ch = '"' then some '"'
  else if ch = '\\' then some '\\'
  else if ch = 'n' then some '\n'
  else if ch = 't' then some '\t'
  else if ch = 'r' then some '\r'
  else if ch = 'b' then some '\x08'
  else if ch = 'f' then some '\x0c'
  else none

/-- Parse a string body up to the closing quote, undoing `escapeChar`;
returns the body and the input after the closing quote. -/
def parseStringBody : List Char → Option (List Char × List Char)
  | [] => none
  | ch :: rest =>
    if ch = '"' then some ([], rest)
    else if ch = '\\' then
      match rest with
      | [] => none
      | e :: rest' =>
        match unescapeChar e, parseStringBody rest' with
        | some c, some (acc, rem) => some (c :: acc, rem)
        | _, _ => none
    else
      match parseStringBody rest with
      | some (acc, rem) => some (ch :: acc, rem)
      | none => none

mutual

/-- Fuel-bounded parser for one JSON value; inverse of `dumpChars` on
well-formed documents. -/
def parseVal : Nat → List Char → Option (Json × List Char)
  | 0, _ => none
  | fuel + 1, cs =>
    match cs with
    | [] => none
    | ch :: rest =>
      if ch = 'n' then
        match rest with
        | 'u' :: 'l' :: 'l' :: rem => some (.null, rem)
        | _ => none
      else if ch = 't' then
        match rest with
        | 'r' :: 'u' :: 'e' :: rem => some (.bool true, rem)
        | _ => none
      else if ch = 'f' then
        match rest with
        | 'a' :: 'l' :: 's' :: 'e' :: rem => some (.bool false, rem)
        | _ => none
      else if ch = '"' then
        match parseStringBody rest with
        | some (body, rem) => some (.str (String.mk body), rem)
        | none => none
      else if ch = '[' then parseElems fuel rest
      else if ch = lbrace then parseFields fuel rest
      else if ch.isDigit || ch = '-' then
        let tok := (ch :: rest).takeWhile numAlpha
        let rem := (ch :: rest).dropWhile numAlpha
        if tokenIsDouble tok then some (.double ⟨String.mk tok⟩, rem)
        else some (.int (decodeIntToken tok), rem)
      else none

/-- Parse the inside of an array after the opening bracket. -/
def parseElems : Nat → List Char → Option (Json × List Char)
  | 0, _ => none
  | fuel + 1, cs =>
    match cs with
    | [] => none
    | c :: cs' =>
      if c = ']' then some (.arr [], cs')
      else
        match parseVal fuel (c :: cs') with
        | some (j, rem) =>
          match parseMoreElems fuel rem with
          | some (js, rem2) => some (.arr (j :: js), rem2)
          | none => none
        | none => none

/-- Parse the rest of an array: either the closing bracket or a comma and a
further element. -/
def parseMoreElems : Nat → List Char → Option (List Json × List Char)
  | 0, _ => none
  | fuel + 1, cs =>
    match cs with
    | [] => none
    | c :: cs' =>
      if c = ']' then some ([], cs')
      else if c = ',' then
        match parseVal fuel cs' with
        | some (j, rem) =>
          match parseMoreElems fuel rem with
          | some (js, rem2) => some (j :: js, rem2)
          | none => none
        | none => none
      else none

/-- Parse one `"key":value` field. -/
def parseOneField : Nat → List Char → Option ((String × Json) × List Char)
  | 0, _ => none
  | fuel + 1, cs =>
    match cs with
    | [] => none
    | c :: cs' =>
      if c = '"' then
        match parseStringBody cs' with
        | some (key, rem) =>
          match rem with
          | [] => none
          | r0 :: rem2 =>
            if r0 = ':' then
              match parseVal fuel rem2 with
              | some (v, rem3) => some ((String.mk key, v), rem3)
              | none => none
            else none
        | none => none
      else none

/-- Parse the inside of an object after the opening brace. -/
def parseFields : Nat → List Char → Option (Json × List Char)
  | 0, _ => none
  | fuel + 1, cs =>
    match cs with
    | [] => none
    | c :: cs' =>
      if c = rbrace then some (.obj [], cs')
      else
        match parseOneField fuel (c :: cs') with
        | some (f, rem) =>
          match parseMoreFields fuel rem with
          | some (fs, rem2) => some (.obj (f :: fs), rem2)
          | none => none
        | none => none

/-- Parse the rest of an object: either the closing brace or a comma and a
further field. -/
def parseMoreFields : Nat → List Char → Option (List (String × Json) × List Char)
  | 0, _ => none
  | fuel + 1, cs =>
    match cs with
    | [] => none
    | c :: cs' =>
      if c = rbrace then some ([], cs')
      else if c = ',' then
        match parseOneField fuel cs' with
        | some (f, rem) =>
          match parseMoreFields fuel rem with
          | some (fs, rem2) => some (f :: fs, rem2)
          | none => none
        | none => none
      else none

end

/-- Deserialization of a blob: parse one value consuming the whole input. -/
def Json.parse (s : String) : Option Json :=
  match parseVal (s.length + 1) s.toList with
  | some (j, []) => some j
  | _ => none

/-- Well-formedness of a double token: nonempty, starts like a number,
stays in the number alphabet, and carries a fraction or exponent mark (as
every double emitted by the C++ serializer does). -/
def wfDouble (d : CDouble) : Bool :=
  match d.repr.toList with
  | [] => false
  | ch :: _ =>
      (ch.isDigit || ch = '-') && d.repr.toList.all numAlpha
        && tokenIsDouble d.repr.toList

mutual

/-- Well-formedness of a document: every embedded double token is
well-formed (`wfDouble`); all other constructs round-trip unconditionally. -/
def wfJson : Json → Bool
  | .null => true
  | .bool _ => true
  | .int _ => true
  | .double d => wfDouble d
  | .str _ => true
  | .arr es => wfElems es
  | .obj fs => wfFields fs

/-- All array elements well-formed. -/
def wfElems : List Json → Bool
  | [] => true
  | j :: rest => wfJson j && wfElems rest

/-- All object field values well-formed. -/
def wfFields : List (String × Json) → Bool
  | [] => true
  | f :: rest => wfJson f.2 && wfFields rest

end

mutual

/-- Structural size of a document, bounding the parser fuel it needs. -/
def jsize : Json → Nat
  | .arr es => jsizeElems es + 2
  | .obj fs => jsizeFields fs + 2
  | _ => 1

/-- Structural size of array elements. -/
def jsizeElems : List Json → Nat
  | [] => 0
  | j :: rest => jsize j + jsizeElems rest

/-- Structural size of object fields. -/
def jsizeFields : List (String × Json) → Nat
  | [] => 0
  | (_, v) :: rest => jsize v + jsizeFields rest + 1

end

/-- The next character, if any, cannot extend a number token. -/
def tailOk : List Char → Bool
  | [] => true
  | c :: _ => !numAlpha c

/-- Parsing undoes escaping: the string body parser recovers exactly the
escaped character list and stops at the closing quote. -/
theorem parseStringBody_escape (L rest : List Char) :
    parseStringBody (escapeList L ++ '"' :: rest) = some (L, rest) := by
  induction L with
  | nil =>
    simp only [escapeList, List.nil_append]
    rw [parseStringBody.eq_def]
    rfl
  | cons ch t ih =>
    by_cases h1 : ch = '"'
    · subst h1
      simp only [escapeList, escapeChar, if_pos rfl, List.cons_append,
        List.append_assoc, List.nil_append]
      rw [parseStringBody.eq_def]
      simp [unescapeChar, ih]
    by_cases h2 : ch = '\\'
    · subst h2
      simp only [escapeList, escapeChar, h1, if_false, if_pos rfl,
        List.cons_append, List.append_assoc, List.nil_append]
      rw [parseStringBody.eq_def]
      simp [unescapeChar, ih]
    by_cases h3 : ch = '\n'
    · subst h3
      simp only [escapeList, escapeChar, h1, h2, if_false, if_pos rfl,
        List.cons_append, List.append_assoc, List.nil_append]
      rw [parseStringBody.eq_def]
      simp [unescapeChar, ih]
    by_cases h4 : ch = '\t'
    · subst h4
      simp only [escapeList, escapeChar, h1, h2, h3, if_false, if_pos rfl,
        List.cons_append, List.append_assoc, List.nil_append]
      rw [parseStringBody.eq_def]
      simp [unescapeChar, ih]
    by_cases h5 : ch = '\r'
    · subst h5
      simp only [escapeList, escapeChar, h1, h2, h3, h4, if_false, if_pos rfl,
        List.cons_append, List.append_assoc, List.nil_append]
      rw [parseStringBody.eq_def]
      simp [unescapeChar, ih]
    by_cases h6 : ch = '\x08'
    · subst h6
      simp only [escapeList, escapeChar, h1, h2, h3, h4, h5, if_false,
        if_pos rfl, List.cons_append, List.append_assoc, List.nil_append]
      rw [parseStringBody.eq_def]
      simp [unescapeChar, ih]
    by_cases h7 : ch = '\x0c'
    · subst h7
      simp only [escapeList, escapeChar, h1, h2, h3, h4, h5, h6, if_false,
        if_pos rfl, List.cons_append, List.append_assoc, List.nil_append]
      rw [parseStringBody.eq_def]
      simp [unescapeChar, ih]
    · simp only [escapeList, escapeChar, h1, h2, h3, h4, h5, h6, h7, if_false,
        List.cons_append, List.append_assoc, List.nil_append,
        List.singleton_append]
      rw [parseStringBody.eq_def]
      simp [h1, h2, ih]

/-- Digit characters are decimal digits. -/
theorem digitChar_isDigit (d : Nat) (hd : d < 10) :
    (Nat.digitChar d).isDigit = true := by
  interval_cases d <;> rfl

/-- Code of a digit character. -/
theorem digitChar_toNat (d : Nat) (hd : d < 10) :
    (Nat.digitChar d).toNat = 48 + d := by
  interval_cases d <;> rfl

/-- A decimal digit differs from any non-digit character. -/
theorem isDigit_ne (c c0 : Char) (h : c.isDigit = true) (h0 : c0.isDigit = false) :
    c ≠ c0 := by
  intro heq
  subst heq
  rw [h] at h0
  cases h0

/-- Decimal digits lie in the number alphabet. -/
theorem isDigit_numAlpha (c : Char) (h : c.isDigit = true) : numAlpha c = true := by
  simp [numAlpha, h]

/-- Every character of `natDumpChars` is a decimal digit. -/
theorem natDumpChars_isDigit (n : Nat) :
    ∀ c ∈ natDumpChars n, c.isDigit = true := by
  intro c hc
  by_cases h0 : n = 0
  · subst h0
    simp [natDumpChars] at hc
    subst hc
    rfl
  · simp only [natDumpChars, if_neg h0, List.mem_reverse, List.mem_map] at hc
    obtain ⟨d, hd, hcd⟩ := hc
    subst hcd
    exact digitChar_isDigit d (Nat.digits_lt_base (by norm_num) hd)

/-- `natDumpChars` is never empty. -/
theorem natDumpChars_ne_nil (n : Nat) : natDumpChars n ≠ [] := by
  by_cases h0 : n = 0
  · subst h0; simp [natDumpChars]
  · simp only [natDumpChars, if_neg h0, ne_eq, List.reverse_eq_nil_iff,
      List.map_eq_nil_iff]
    exact Nat.digits_ne_nil_iff_ne_zero.mpr h0

/-- Folding the decimal decode over printed digits recovers the number. -/
theorem decodeDigits_revMap (ds : List Nat) (hd : ∀ d ∈ ds, d < 10) :
    ∀ acc : Nat,
      List.foldl (fun a ch => a * 10 + (ch.toNat - 48)) acc
          ((ds.map Nat.digitChar).reverse)
        = acc * 10 ^ ds.length + Nat.ofDigits 10 ds := by
  induction ds with
  | nil => intro acc; simp
  | cons d t ih =>
    intro acc
    have hdlt : d < 10 := hd d (List.mem_cons_self d t)
    have hdt : ∀ x ∈ t, x < 10 := fun x hx => hd x (List.mem_cons_of_mem d hx)
    simp only [List.map_cons, List.reverse_cons, List.foldl_append,
      List.foldl_cons, List.foldl_nil]
    rw [ih hdt acc, digitChar_toNat d hdlt, Nat.ofDigits_cons]
    simp only [List.length_cons]
    ring_nf
    omega

/-- Decoding the printed digits of a natural number recovers it. -/
theorem decodeDigits_natDumpChars (n : Nat) :
    decodeDigits (natDumpChars n) = n := by
  by_cases h0 : n = 0
  · subst h0; rfl
  · simp only [natDumpChars, if_neg h0, decodeDigits]
    rw [decodeDigits_revMap (Nat.digits 10 n)
      (fun d hd => Nat.digits_lt_base (by norm_num) hd) 0]
    simp [Nat.ofDigits_digits]

/-- `takeWhile` and `dropWhile` split an append exactly at the boundary when
the prefix satisfies the predicate and the suffix starts violating it. -/
theorem takeWhile_append_all {α : Type} (p : α → Bool) (xs ys : List α)
    (hx : ∀ x ∈ xs, p x = true)
    (hy : ∀ y, ys.head? = some y → p y = false) :
    (xs ++ ys).takeWhile p = xs ∧ (xs ++ ys).dropWhile p = ys := by
  induction xs with
  | nil =>
    cases ys with
    | nil => simp
    | cons y t =>
      simp only [List.nil_append, List.takeWhile_cons, List.dropWhile_cons,
        hy y rfl]
      simp
  | cons x xs ih =>
    have hx1 : p x = true := hx x (List.mem_cons_self x xs)
    have hxs : ∀ x' ∈ xs, p x' = true :=
      fun x' hx' => hx x' (List.mem_cons_of_mem x hx')
    obtain ⟨ih1, ih2⟩ := ih hxs
    simp only [List.cons_append, List.takeWhile_cons, List.dropWhile_cons,
      hx1, ih1, ih2]
    simp

/-- The tail after a number token rejects its first character. -/
theorem tailOk_head (rest : List Char) (ht : tailOk rest = true) :
    ∀ y, rest.head? = some y → numAlpha y = false := by
  intro y hy
  cases rest with
  | nil => cases hy
  | cons c t =>
    simp only [List.head?_cons, Option.some.injEq] at hy
    subst hy
    simpa [tailOk] using ht

/-- The integer token is never empty. -/
theorem intDumpChars_ne_nil (i : Int) : intDumpChars i ≠ [] := by
  by_cases h : i < 0
  · simp [intDumpChars, h]
  · simp only [intDumpChars, if_neg h]
    exact natDumpChars_ne_nil i.toNat

/-- Every character of an integer token is in the number alphabet. -/
theorem intDumpChars_numAlpha (i : Int) :
    ∀ c ∈ intDumpChars i, numAlpha c = true := by
  intro c hc
  by_cases h : i < 0
  · simp only [intDumpChars, if_pos h, List.mem_cons] at hc
    rcases hc with hc | hc
    · subst hc; rfl
    · exact isDigit_numAlpha c (natDumpChars_isDigit i.natAbs c hc)
  · simp only [intDumpChars, if_neg h] at hc
    exact isDigit_numAlpha c (natDumpChars_isDigit i.toNat c hc)

/-- An integer token carries no fraction or exponent mark. -/
theorem intDumpChars_not_double (i : Int) :
    tokenIsDouble (intDumpChars i) = false := by
  rw [tokenIsDouble, List.any_eq_false]
  intro c hc
  have hdig : c.isDigit = true ∨ c = '-' := by
    by_cases h : i < 0
    · simp only [intDumpChars, if_pos h, List.mem_cons] at hc
      rcases hc with hc | hc
      · exact Or.inr hc
      · exact Or.inl (natDumpChars_isDigit i.natAbs c hc)
    · simp only [intDumpChars, if_neg h] at hc
      exact Or.inl (natDumpChars_isDigit i.toNat c hc)
  rcases hdig with hd | hd
  · simp [isDigit_ne c '.' hd (by rfl), isDigit_ne c 'e' hd (by rfl),
      isDigit_ne c 'E' hd (by rfl)]
  · subst hd; decide

/-- An integer token starts with a digit or a minus sign. -/
theorem intDumpChars_head (i : Int) :
    ∃ c t, intDumpChars i = c :: t ∧ (c.isDigit || c = '-') = true := by
  by_cases h : i < 0
  · exact ⟨'-', natDumpChars i.natAbs, by simp [intDumpChars, h], by rfl⟩
  · rcases hne : natDumpChars i.toNat with _ | ⟨c, t⟩
    · exact absurd hne (natDumpChars_ne_nil i.toNat)
    · refine ⟨c, t, by simp [intDumpChars, h, hne], ?_⟩
      have : c.isDigit = true :=
        natDumpChars_isDigit i.toNat c (by rw [hne]; exact List.mem_cons_self c t)
      simp [this]

/-- Decoding an integer token recovers the integer. -/
theorem decodeIntToken_intDumpChars (i : Int) :
    decodeIntToken (intDumpChars i) = i := by
  by_cases h : i < 0
  · have hstep : decodeIntToken ('-' :: natDumpChars i.natAbs)
        = -(decodeDigits (natDumpChars i.natAbs) : Int) := by
      simp [decodeIntToken]
    simp only [intDumpChars, if_pos h, hstep, decodeDigits_natDumpChars]
    rw [Int.ofNat_natAbs_of_nonpos (le_of_lt h)]
    ring
  · simp only [intDumpChars, if_neg h]
    rcases hne : natDumpChars i.toNat with _ | ⟨c, t⟩
    · exact absurd hne (natDumpChars_ne_nil i.toNat)
    · have hcd : c.isDigit = true :=
        natDumpChars_isDigit i.toNat c (by rw [hne]; exact List.mem_cons_self c t)
      have hcm : ¬c = '-' := isDigit_ne c '-' hcd (by rfl)
      rw [decodeIntToken, if_neg hcm, ← hne, decodeDigits_natDumpChars]
      exact Int.toNat_of_nonneg (le_of_not_lt h)

/-- A number-token head differs from any dispatch character that is neither
a digit nor a minus sign. -/
theorem numHead_ne (c : Char) (hcd : (c.isDigit || c = '-') = true) (c0 : Char)
    (h0 : c0.isDigit = false) (h1 : ¬c0 = '-') : ¬c = c0 := by
  have hcd' : c.isDigit = true ∨ c = '-' := by
    simpa [Bool.or_eq_true, decide_eq_true_eq] using hcd
  rcases hcd' with hd | hd
  · exact isDigit_ne c c0 hd h0
  · subst hd
    exact fun heq => h1 heq.symm

/-- The parser reads back an integer token. -/
theorem parseVal_intDump (fuel : Nat) (i : Int) (rest : List Char)
    (ht : tailOk rest = true) :
    parseVal (fuel + 1) (intDumpChars i ++ rest) = some (.int i, rest) := by
  obtain ⟨c, t, hct, hcd⟩ := intDumpChars_head i
  have hall : ∀ x ∈ c :: t, numAlpha x = true := by
    rw [← hct]; exact intDumpChars_numAlpha i
  obtain ⟨htw, hdw⟩ :=
    takeWhile_append_all numAlpha (c :: t) rest hall (tailOk_head rest ht)
  have hdub : tokenIsDouble (c :: t) = false := by
    rw [← hct]; exact intDumpChars_not_double i
  have hdec : decodeIntToken (c :: t) = i := by
    rw [← hct]; exact decodeIntToken_intDumpChars i
  have hn : (c = 'n') = False := eq_false (numHead_ne c hcd 'n' (by rfl) (by decide))
  have ht' : (c = 't') = False := eq_false (numHead_ne c hcd 't' (by rfl) (by decide))
  have hf : (c = 'f') = False := eq_false (numHead_ne c hcd 'f' (by rfl) (by decide))
  have hq : (c = '"') = False := eq_false (numHead_ne c hcd '"' (by rfl) (by decide))
  have hb : (c = '[') = False := eq_false (numHead_ne c hcd '[' (by rfl) (by decide))
  have hc2 : (c = lbrace) = False :=
    eq_false (numHead_ne c hcd lbrace (by decide) (by decide))
  simp only [List.cons_append] at htw hdw
  rw [hct, List.cons_append, parseVal.eq_def]
  simp only [hn, ht', hf, hq, hb, hc2, if_false, hcd, if_true, htw, hdw,
    hdub, hdec, Bool.false_eq_true]

/-- The parser reads back a well-formed double token. -/
theorem parseVal_double (fuel : Nat) (d : CDouble) (rest : List Char)
    (ht : tailOk rest = true) (hwf : wfDouble d = true) :
    parseVal (fuel + 1) (d.repr.toList ++ rest) = some (.double d, rest) := by
  rcases hrep : d.repr.toList with _ | ⟨c, t⟩
  · rw [wfDouble, hrep] at hwf
    cases hwf
  · rw [wfDouble, hrep] at hwf
    simp only [Bool.and_eq_true] at hwf
    obtain ⟨⟨hcd, hallb⟩, hdub⟩ := hwf
    have hall : ∀ x ∈ c :: t, numAlpha x = true := by
      intro x hx
      exact List.all_eq_true.mp hallb x hx
    obtain ⟨htw, hdw⟩ :=
      takeWhile_append_all numAlpha (c :: t) rest hall (tailOk_head rest ht)
    have hback : (⟨String.mk (c :: t)⟩ : CDouble) = d := by
      rw [← hrep]
      rcases d with ⟨srepr⟩
      rfl
    have hn : (c = 'n') = False := eq_false (numHead_ne c hcd 'n' (by rfl) (by decide))
    have ht' : (c = 't') = False := eq_false (numHead_ne c hcd 't' (by rfl) (by decide))
    have hf : (c = 'f') = False := eq_false (numHead_ne c hcd 'f' (by rfl) (by decide))
    have hq : (c = '"') = False := eq_false (numHead_ne c hcd '"' (by rfl) (by decide))
    have hb : (c = '[') = False := eq_false (numHead_ne c hcd '[' (by rfl) (by decide))
    have hc2 : (c = lbrace) = False :=
      eq_false (numHead_ne c hcd lbrace (by decide) (by decide))
    simp only [List.cons_append] at htw hdw
    rw [List.cons_append, parseVal.eq_def]
    simp only [hn, ht', hf, hq, hb, hc2, if_false, hcd, if_true, htw, hdw,
      hdub, if_true, hback]

/-- Rebuilding a string from its characters is the identity. -/
theorem stringMk_toList (s : String) : String.mk s.toList = s := rfl

/-- A positive natural number is a successor. -/
theorem exists_succ_of_pos (n : Nat) (h : 1 ≤ n) : ∃ m, n = m + 1 :=
  ⟨n - 1, by omega⟩

/-- Every document has positive size. -/
theorem jsize_pos (j : Json) : 1 ≤ jsize j := by
  cases j <;> simp [jsize]

/-- What follows a serialized element list cannot extend a number token. -/
theorem tailOk_elems (es : List Json) (rest : List Char) :
    tailOk (dumpMoreElems es ++ ']' :: rest) = true := by
  cases es <;> simp [dumpMoreElems, tailOk, numAlpha]

/-- What follows a serialized field list cannot extend a number token. -/
theorem tailOk_fields (fs : List (String × Json)) (rest : List Char) :
    tailOk (dumpMoreFields fs ++ rbrace :: rest) = true := by
  cases fs with
  | nil => simp [dumpMoreFields, tailOk, numAlpha, rbrace]
  | cons f r =>
    obtain ⟨k, v⟩ := f
    simp [dumpMoreFields, tailOk, numAlpha]

/-- A serialized well-formed document is nonempty and never starts with a
closing bracket. -/
theorem dumpChars_head_ne (j : Json) (hwf : wfJson j = true) :
    ∃ c cs, dumpChars j = c :: cs ∧ ¬c = ']' := by
  cases j with
  | null =>
    exact ⟨'n', ['u', 'l', 'l'], by simp [dumpChars, nullChars], by decide⟩
  | bool b =>
    cases b
    · exact ⟨'f', ['a', 'l', 's', 'e'], by simp [dumpChars, falseChars],
        by decide⟩
    · exact ⟨'t', ['r', 'u', 'e'], by simp [dumpChars, trueChars], by decide⟩
  | int n =>
    obtain ⟨c, t, hct, hcd⟩ := intDumpChars_head n
    exact ⟨c, t, by simp only [dumpChars]; exact hct,
      numHead_ne c hcd ']' (by rfl) (by decide)⟩
  | double d =>
    rw [wfJson] at hwf
    rcases hrep : d.repr.toList with _ | ⟨c, t⟩
    · rw [wfDouble, hrep] at hwf
      cases hwf
    · rw [wfDouble, hrep] at hwf
      simp only [Bool.and_eq_true] at hwf
      exact ⟨c, t, by simp only [dumpChars]; exact hrep,
        numHead_ne c hwf.1.1 ']' (by rfl) (by decide)⟩
  | str s =>
    exact ⟨'"', escapeList s.toList ++ ['"'], by simp [dumpChars], by decide⟩
  | arr es =>
    cases es with
    | nil => exact ⟨'[', [']'], by simp [dumpChars], by decide⟩
    | cons j r =>
      exact ⟨'[', dumpChars j ++ dumpMoreElems r ++ [']'],
        by simp [dumpChars], by decide⟩
  | obj fs =>
    cases fs with
    | nil => exact ⟨lbrace, [rbrace], by simp [dumpChars], by decide⟩
    | cons f r =>
      obtain ⟨k, v⟩ := f
      exact ⟨lbrace,
        ('"' :: escapeList k.toList ++ ['"', ':'] ++ dumpChars v)
          ++ dumpMoreFields r ++ [rbrace],
        by simp [dumpChars], by decide⟩

/-- The size of a well-formed document is at most its serialized length, so
`(dump j).length + 1` fuel always suffices for the parser. -/
theorem jsize_le_dumpLen :
    ∀ fuel : Nat,
      (∀ j, jsize j ≤ fuel → wfJson j = true →
        jsize j ≤ (dumpChars j).length) ∧
      (∀ es, jsizeElems es < fuel → wfElems es = true →
        jsizeElems es ≤ (dumpMoreElems es).length) ∧
      (∀ fs, jsizeFields fs < fuel → wfFields fs = true →
        jsizeFields fs ≤ (dumpMoreFields fs).length) := by
  intro fuel
  induction fuel using Nat.strong_induction_on with
  | _ fuel ih =>
    refine ⟨?_, ?_, ?_⟩
    · intro j hsz hwf
      cases j with
      | null => simp [jsize, dumpChars, nullChars]
      | bool b => cases b <;> simp [jsize, dumpChars, trueChars, falseChars]
      | int n =>
        have hne := intDumpChars_ne_nil n
        have hlen : 0 < (intDumpChars n).length := List.length_pos.mpr hne
        simp only [jsize, dumpChars]
        omega
      | double d =>
        rw [wfJson] at hwf
        rcases hrep : d.repr.toList with _ | ⟨c, t⟩
        · rw [wfDouble, hrep] at hwf; cases hwf
        · simp only [jsize, dumpChars, hrep, List.length_cons]
          omega
      | str s =>
        simp only [jsize, dumpChars, List.length_append, List.length_cons]
        omega
      | arr es =>
        cases es with
        | nil => simp [jsize, jsizeElems, dumpChars]
        | cons e r =>
          simp only [jsize, jsizeElems] at hsz ⊢
          rw [wfJson, wfElems] at hwf
          simp only [Bool.and_eq_true] at hwf
          have hpe := jsize_pos e
          have h1 : jsize e ≤ (dumpChars e).length :=
            (ih (jsize e) (by omega)).1 e le_rfl hwf.1
          have h2 : jsizeElems r ≤ (dumpMoreElems r).length :=
            (ih (jsizeElems r + 1) (by omega)).2.1 r (by omega) hwf.2
          simp only [dumpChars, List.length_append, List.length_cons,
            List.length_singleton]
          omega
      | obj fs =>
        cases fs with
        | nil => simp [jsize, jsizeFields, dumpChars]
        | cons f r =>
          obtain ⟨k, v⟩ := f
          simp only [jsize, jsizeFields] at hsz ⊢
          rw [wfJson, wfFields] at hwf
          simp only [Bool.and_eq_true] at hwf
          have hpv := jsize_pos v
          have h1 : jsize v ≤ (dumpChars v).length :=
            (ih (jsize v) (by omega)).1 v le_rfl hwf.1
          have h2 : jsizeFields r ≤ (dumpMoreFields r).length :=
            (ih (jsizeFields r + 1) (by omega)).2.2 r (by omega) hwf.2
          simp only [dumpChars, List.length_append, List.length_cons,
            List.length_singleton]
          omega
    · intro es hsz hwf
      cases es with
      | nil => simp [jsizeElems, dumpMoreElems]
      | cons e r =>
        simp only [jsizeElems] at hsz ⊢
        rw [wfElems] at hwf
        simp only [Bool.and_eq_true] at hwf
        have hpe := jsize_pos e
        have h1 : jsize e ≤ (dumpChars e).length :=
          (ih (jsize e) (by omega)).1 e le_rfl hwf.1
        have h2 : jsizeElems r ≤ (dumpMoreElems r).length :=
          (ih (jsizeElems r + 1) (by omega)).2.1 r (by omega) hwf.2
        simp only [dumpMoreElems, List.length_append, List.length_cons]
        omega
    · intro fs hsz hwf
      cases fs with
      | nil => simp [jsizeFields, dumpMoreFields]
      | cons f r =>
        obtain ⟨k, v⟩ := f
        simp only [jsizeFields] at hsz ⊢
        rw [wfFields] at hwf
        simp only [Bool.and_eq_true] at hwf
        have hpv := jsize_pos v
        have h1 : jsize v ≤ (dumpChars v).length :=
          (ih (jsize v) (by omega)).1 v le_rfl hwf.1
        have h2 : jsizeFields r ≤ (dumpMoreFields r).length :=
          (ih (jsizeFields r + 1) (by omega)).2.2 r (by omega) hwf.2
        simp only [dumpMoreFields, List.length_append, List.length_cons]
        omega

/-- With enough fuel, the parser inverts the serializer on well-formed
documents, leaving exactly the given tail. -/
theorem parseVal_dumpChars :
    ∀ fuel : Nat,
      (∀ j rest, wfJson j = true → jsize j ≤ fuel → tailOk rest = true →
        parseVal fuel (dumpChars j ++ rest) = some (j, rest)) ∧
      (∀ es rest, wfElems es = true → jsizeElems es + 1 ≤ fuel →
        parseMoreElems fuel (dumpMoreElems es ++ ']' :: rest)
          = some (es, rest)) ∧
      (∀ k v rest, wfJson v = true → jsize v + 1 ≤ fuel → tailOk rest = true →
        parseOneField fuel (fieldChars k v ++ rest) = some ((k, v), rest)) ∧
      (∀ fs rest, wfFields fs = true → jsizeFields fs + 1 ≤ fuel →
        parseMoreFields fuel (dumpMoreFields fs ++ rbrace :: rest)
          = some (fs, rest)) := by
  intro fuel
  induction fuel using Nat.strong_induction_on with
  | _ fuel ih =>
    refine ⟨?_, ?_, ?_, ?_⟩
    · intro j rest hwf hsz htail
      have hpos := jsize_pos j
      obtain ⟨f, rfl⟩ := exists_succ_of_pos fuel (by omega)
      cases j with
      | null =>
        simp only [dumpChars, nullChars, List.cons_append, List.nil_append]
        rw [parseVal.eq_def]
        simp
      | bool b =>
        cases b <;>
          (simp only [dumpChars, trueChars, falseChars, List.cons_append,
             List.nil_append]
           rw [parseVal.eq_def]
           simp)
      | int n =>
        simp only [dumpChars]
        exact parseVal_intDump f n rest htail
      | double d =>
        rw [wfJson] at hwf
        simp only [dumpChars]
        exact parseVal_double f d rest htail hwf
      | str s =>
        simp only [dumpChars, List.cons_append, List.append_assoc,
          List.singleton_append]
        rw [parseVal.eq_def]
        simp [parseStringBody_escape, stringMk_toList]
      | arr es =>
        cases es with
        | nil =>
          simp only [jsize, jsizeElems] at hsz
          obtain ⟨g, rfl⟩ := exists_succ_of_pos f (by omega)
          simp only [dumpChars, List.cons_append, List.nil_append]
          rw [parseVal.eq_def]
          have b1 : ('[' = 'n') = False := by decide
          have b2 : ('[' = 't') = False := by decide
          have b3 : ('[' = 'f') = False := by decide
          have b4 : ('[' = '"') = False := by decide
          have b5 : ('[' = '[') = True := by simp
          simp only [b1, b2, b3, b4, b5, if_false, if_true]
          rw [parseElems.eq_def]
          simp
        | cons e r =>
          rw [wfJson, wfElems] at hwf
          simp only [Bool.and_eq_true] at hwf
          obtain ⟨hwe, hwr⟩ := hwf
          simp only [jsize, jsizeElems] at hsz
          have hpe := jsize_pos e
          obtain ⟨g, rfl⟩ := exists_succ_of_pos f (by omega)
          have hV := (ih g (by omega)).1 e (dumpMoreElems r ++ ']' :: rest)
            hwe (by omega) (tailOk_elems r rest)
          have hM := (ih g (by omega)).2.1 r rest hwr (by omega)
          simp only [dumpChars, List.cons_append, List.append_assoc,
            List.singleton_append, List.nil_append]
          rw [parseVal.eq_def]
          have b1 : ('[' = 'n') = False := by decide
          have b2 : ('[' = 't') = False := by decide
          have b3 : ('[' = 'f') = False := by decide
          have b4 : ('[' = '"') = False := by decide
          have b5 : ('[' = '[') = True := by simp
          simp only [b1, b2, b3, b4, b5, if_false, if_true]
          obtain ⟨c, cs, hc, hcne⟩ := dumpChars_head_ne e hwe
          rw [hc] at hV ⊢
          simp only [List.cons_append, List.nil_append] at hV ⊢
          rw [parseElems.eq_def]
          simp only [eq_false hcne, if_false, hV, hM]
      | obj fs =>
        cases fs with
        | nil =>
          simp only [jsize, jsizeFields] at hsz
          obtain ⟨g, rfl⟩ := exists_succ_of_pos f (by omega)
          simp only [dumpChars, List.cons_append, List.nil_append]
          rw [parseVal.eq_def]
          have e1 : (lbrace = 'n') = False := by decide
          have e2 : (lbrace = 't') = False := by decide
          have e3 : (lbrace = 'f') = False := by decide
          have e4 : (lbrace = '"') = False := by decide
          have e5 : (lbrace = '[') = False := by decide
          have e6 : (lbrace = lbrace) = True := by simp
          simp only [e1, e2, e3, e4, e5, e6, if_false, if_true]
          rw [parseFields.eq_def]
          have e7 : (rbrace = rbrace) = True := by simp
          simp only [e7, if_true]
        | cons fl r =>
          obtain ⟨k, v⟩ := fl
          rw [wfJson, wfFields] at hwf
          simp only [Bool.and_eq_true] at hwf
          obtain ⟨hwv, hwr⟩ := hwf
          simp only [jsize, jsizeFields] at hsz
          have hpv := jsize_pos v
          obtain ⟨g, rfl⟩ := exists_succ_of_pos f (by omega)
          have hF := (ih g (by omega)).2.2.1 k v
            (dumpMoreFields r ++ rbrace :: rest) hwv (by omega)
            (tailOk_fields r rest)
          have hG := (ih g (by omega)).2.2.2 r rest hwr (by omega)
          simp only [dumpChars, List.cons_append, List.append_assoc,
            List.singleton_append, List.nil_append]
          rw [parseVal.eq_def]
          have e1 : (lbrace = 'n') = False := by decide
          have e2 : (lbrace = 't') = False := by decide
          have e3 : (lbrace = 'f') = False := by decide
          have e4 : (lbrace = '"') = False := by decide
          have e5 : (lbrace = '[') = False := by decide
          have e6 : (lbrace = lbrace) = True := by simp
          simp only [e1, e2, e3, e4, e5, e6, if_false, if_true]
          rw [parseFields.eq_def]
          have e7 : ('"' = rbrace) = False := by decide
          simp only [fieldChars, List.cons_append, List.append_assoc,
            List.nil_append] at hF
          simp only [e7, if_false, hF, hG]
    · intro es rest hwf hsz
      obtain ⟨m, rfl⟩ := exists_succ_of_pos fuel (by omega)
      cases es with
      | nil =>
        simp only [dumpMoreElems, List.nil_append]
        rw [parseMoreElems.eq_def]
        simp
      | cons e r =>
        rw [wfElems] at hwf
        simp only [Bool.and_eq_true] at hwf
        obtain ⟨hwe, hwr⟩ := hwf
        simp only [jsizeElems] at hsz
        have hpe := jsize_pos e
        have hV := (ih m (by omega)).1 e (dumpMoreElems r ++ ']' :: rest)
          hwe (by omega) (tailOk_elems r rest)
        have hM := (ih m (by omega)).2.1 r rest hwr (by omega)
        simp only [dumpMoreElems, List.cons_append, List.append_assoc,
          List.nil_append]
        rw [parseMoreElems.eq_def]
        have d1 : (',' = ']') = False := by decide
        have d2 : (',' = ',') = True := by simp
        simp only [d1, d2, if_false, if_true, hV, hM]
    · intro k v rest hwf hsz htail
      obtain ⟨m, rfl⟩ := exists_succ_of_pos fuel (by omega)
      have hV := (ih m (by omega)).1 v rest hwf (by omega) htail
      simp only [fieldChars, List.cons_append, List.append_assoc,
        List.singleton_append]
      rw [parseOneField.eq_def]
      simp [parseStringBody_escape, stringMk_toList, hV]
    · intro fs rest hwf hsz
      obtain ⟨m, rfl⟩ := exists_succ_of_pos fuel (by omega)
      cases fs with
      | nil =>
        simp only [dumpMoreFields, List.nil_append]
        rw [parseMoreFields.eq_def]
        have e7 : (rbrace = rbrace) = True := by simp
        simp only [e7, if_true]
      | cons fl r =>
        obtain ⟨k, v⟩ := fl
        rw [wfFields] at hwf
        simp only [Bool.and_eq_true] at hwf
        obtain ⟨hwv, hwr⟩ := hwf
        simp only [jsizeFields] at hsz
        have hpv := jsize_pos v
        have hF := (ih m (by omega)).2.2.1 k v
          (dumpMoreFields r ++ rbrace :: rest) hwv (by omega)
          (tailOk_fields r rest)
        have hG := (ih m (by omega)).2.2.2 r rest hwr (by omega)
        simp only [dumpMoreFields, List.cons_append, List.append_assoc,
          List.nil_append]
        rw [parseMoreFields.eq_def]
        have e8 : (',' = rbrace) = False := by decide
        have e9 : (',' = ',') = True := by simp
        simp only [fieldChars, List.cons_append, List.append_assoc,
          List.nil_append] at hF
        simp only [e8, e9, if_false, if_true, hF, hG]

/-- Deserializing the serialization of a well-formed document recovers the
document. -/
theorem parse_dump (j : Json) (hwf : wfJson j = true) :
    Json.parse (Json.dump j) = some j := by
  have hsz : jsize j ≤ (dumpChars j).length :=
    (jsize_le_dumpLen (jsize j)).1 j le_rfl hwf
  have hlen : (Json.dump j).length = (dumpChars j).length := rfl
  have htl : (Json.dump j).toList = dumpChars j := rfl
  have h := (parseVal_dumpChars ((Json.dump j).length + 1)).1 j [] hwf
    (by rw [hlen]; omega) (by rfl)
  rw [List.append_nil] at h
  rw [Json.parse, htl, h]

/-- C9: for a connected client against the healthy store, a successful
`storeStockData(symbol, D)` followed by `getStockData(symbol)` with no
intervening writes returns exactly the blob `D.dump`, and deserializing that
blob recovers a document equal to `D` (for any `D` whose embedded double
tokens are well-formed, as every document serialized by the C++ JSON
library is). -/
theorem quote_roundtrip (c : RedisClient) (st : Store) (symbol : String)
    (data : Json) (h : c.connected = true) (hwf : wfJson data = true) :
    (storeStockData redisExec c st symbol data).ret = true ∧
    (getStockData redisExec c (storeStockData redisExec c st symbol data).store
      symbol).ret = data.dump ∧
    Json.parse data.dump = some data := by
  refine ⟨?_, ?_, parse_dump data hwf⟩
  · rw [storeStockData_redis_step c st symbol data h]
  · rw [storeStockData_redis_step c st symbol data h]
    simp [getStockData, h, redisExec, Store.getKV, lookup_updEntry_self,
      stringReply, RedisReply.rtype, RedisReply.str]

/-- Closed instance of `quote_roundtrip` at a concrete document. -/
theorem quote_roundtrip_witness :
    (RedisClient.mk (some 1) "localhost" 6379 true).connected = true ∧
    wfJson (Json.arr [Json.int 42, Json.str "hi", Json.bool true]) = true ∧
    ((storeStockData redisExec (RedisClient.mk (some 1) "localhost" 6379 true)
        (Store.mk [] []) "AAPL"
        (Json.arr [Json.int 42, Json.str "hi", Json.bool true])).ret = true ∧
     (getStockData redisExec (RedisClient.mk (some 1) "localhost" 6379 true)
        (storeStockData redisExec (RedisClient.mk (some 1) "localhost" 6379 true)
          (Store.mk [] []) "AAPL"
          (Json.arr [Json.int 42, Json.str "hi", Json.bool true])).store
        "AAPL").ret
       = (Json.arr [Json.int 42, Json.str "hi", Json.bool true]).dump ∧
     Json.parse (Json.arr [Json.int 42, Json.str "hi", Json.bool true]).dump
       = some (Json.arr [Json.int 42, Json.str "hi", Json.bool true])) :=
  ⟨rfl, by simp [wfJson, wfElems],
    quote_roundtrip (RedisClient.mk (some 1) "localhost" 6379 true)
      (Store.mk [] []) "AAPL"
      (Json.arr [Json.int 42, Json.str "hi", Json.bool true]) rfl
      (by simp [wfJson, wfElems])⟩
